import Mathlib

-- Verification development for the smart-cycle-discounts build tooling.
-- Paths are modelled as lists of components, each component a list of
-- characters; file contents are lists of characters.  All definitions are
-- direct translations of the Python sources (build.py,
-- add-premium-annotations.py, compare-versions.py, update-file-headers.py).

abbrev Component : Type := List Char

abbrev RelPath : Type := List Component

/-- Scan for a star: try the rest of the pattern against every suffix of the
string, from the longest suffix down. -/
def starScan (m : List Char → Bool) : List Char → Bool
  | [] => m []
  | c :: t => m (c :: t) || starScan m t

/-- Shell-style glob matching as used by fnmatch.fnmatch on POSIX for the
patterns exercised by the scripts: a star matches any (possibly empty)
character sequence, a question mark matches exactly one character, any other
pattern character matches itself.  Character classes are not modelled; no
pattern in the repository's configured rule sets contains one. -/
def glob : List Char → List Char → Bool
  | [], t => t.isEmpty
  | p :: ps, t =>
    if p = '*' then starScan (fun u => glob ps u) t
    else
      match t with
      | [] => false
      | c :: t' => (p == c || p == '?') && glob ps t'

/-- Literal list-prefix test, modelling Python's str.startswith. -/
def isPre : List Char → List Char → Bool
  | [], _ => true
  | _ :: _, [] => false
  | a :: as, b :: bs => (a == b) && isPre as bs

/-- Final component of a relative path, modelling os.path.basename. -/
def pathBase : RelPath → Component
  | [] => []
  | [c] => c
  | _ :: cs => pathBase cs

/-- Reassemble a relative path into its slash-separated string form. -/
def joinPath : RelPath → List Char
  | [] => []
  | [c] => c
  | c :: cs => c ++ '/' :: joinPath cs

/-- Component-wise strict prefix: the first path is a directory strictly above
the second.  With the empty list as the allow-root "." this puts every
non-empty path beneath it, matching os.walk started at the tree root. -/
def strictPre : RelPath → RelPath → Bool
  | [], [] => false
  | [], _ :: _ => true
  | _ :: _, [] => false
  | d :: ds, p :: ps => (d == p) && strictPre ds ps

/-- Root-level files included in the build, from build.py INCLUDE_ROOT_FILES
(lines 64-69). -/
def INCLUDE_ROOT_FILES : List Component :=
  ["smart-cycle-discounts.php".toList, "index.php".toList, "readme.txt".toList,
   "LICENSE".toList]

/-- Directories included recursively, from build.py INCLUDE_DIRS (lines
72-82), decomposed into components. -/
def INCLUDE_DIRS : List RelPath :=
  [ ["includes".toList],
    ["resources".toList, "assets".toList, "css".toList],
    ["resources".toList, "assets".toList, "js".toList],
    ["resources".toList, "assets".toList, "vendor".toList],
    ["resources".toList, "assets".toList, "images".toList],
    ["resources".toList, "views".toList],
    ["templates".toList],
    ["languages".toList],
    ["vendor".toList, "freemius".toList] ]

/-- Patterns skipped inside included directories, from build.py
EXCLUDE_FILES_WITHIN (lines 86-97). -/
def EXCLUDE_FILES_WITHIN : List (List Char) :=
  ["*.sh".toList, "*.md".toList, "*.map".toList, "*.scss".toList,
   "*.sass".toList, "*.ts".toList, "*.log".toList, ".gitkeep".toList,
   ".DS_Store".toList, "Thumbs.db".toList]

/-- Wildcard pattern match from build.py matches_pattern (lines 116-119),
argument order as in the source: filename first, pattern second. -/
def matches_pattern (filename pattern : List Char) : Bool := glob pattern filename

/-- Per-file skip test from build.py should_skip_file (lines 122-128): only
the basename of the path is matched against each pattern. -/
def should_skip_file (deny : List (List Char)) (p : RelPath) : Bool :=
  deny.any (fun pat => matches_pattern (pathBase p) pat)

/-- Static configuration consumed by create_zip: the root-file allow list,
the recursively included directories, and the within-directory deny
patterns. -/
structure BuildCfg where
  rootFiles : List Component
  incDirs : List RelPath
  denyPats : List (List Char)

/-- The configuration hard-coded in build.py. -/
def buildCfg : BuildCfg :=
  ⟨INCLUDE_ROOT_FILES, INCLUDE_DIRS, EXCLUDE_FILES_WITHIN⟩

/-- Phase 1 of build.py create_zip (lines 137-144): a path is written as a
root file exactly when it is a single component listed in the root-file allow
list; no deny pattern is consulted for these. -/
def isRootInclude (cfg : BuildCfg) (p : RelPath) : Bool :=
  match p with
  | [n] => cfg.rootFiles.contains n
  | _ => false

/-- Decision of build.py create_zip (lines 136-163) for one existing path:
written to the archive iff it is a listed root file, or it lies strictly
below one of the included directories and its basename matches no deny
pattern. -/
def accepts (cfg : BuildCfg) (p : RelPath) : Bool :=
  isRootInclude cfg p ||
    (cfg.incDirs.any (fun d => strictPre d p) &&
      !(should_skip_file cfg.denyPats p))

/-- Paths touched by create_zip on a given tree of existing files: the root
file probes (phase 1) plus, for each included directory, exactly the files
beneath it that os.walk started at that directory enumerates.  Directories
not listed in incDirs are never walked. -/
def createZipVisits (cfg : BuildCfg) (tree : List RelPath) : List RelPath :=
  cfg.rootFiles.map (fun n => [n]) ++
    cfg.incDirs.flatMap (fun d => tree.filter (fun p => strictPre d p))

/-- A path strictly beneath the top-level directory t. -/
def beneathTop (t : Component) (p : RelPath) : Bool :=
  match p with
  | a :: _ :: _ => a == t
  | _ => false

/-- Test for a shell wildcard character in a pattern (the special characters
of fnmatch). -/
def hasWildcard (pat : List Char) : Bool :=
  pat.any (fun c => c == '*' || c == '?' || c == '[')

/-- Configuration of the end-to-end scenario: force-include b.md, allow-root
the tree root itself, deny patterns star-dot-md and star-dot-log. -/
def scenCfg : BuildCfg :=
  ⟨["b.md".toList], [([] : RelPath)], ["*.md".toList, "*.log".toList]⟩

/-- File tree of the end-to-end scenario. -/
def scenTree : List RelPath :=
  [ ["a.php".toList], ["b.md".toList],
    ["sub".toList, "c.php".toList], ["sub".toList, "d.log".toList] ]

/-- Sentinel marker string from add-premium-annotations.py (line 85). -/
def sentinel : List Char := "@freemius_premium_only".toList

/-- The line inserted into the docblock (add-premium-annotations.py line
117). -/
def markerLine : List Char := " * @freemius_premium_only".toList

/-- Literal compared against a stripped line to skip the opening tag. -/
def phpOpen : List Char := "<?php".toList

/-- Opening delimiter of a docblock line. -/
def docOpen : List Char := "/**".toList

/-- Closing delimiter line of a docblock. -/
def docClose : List Char := "*/".toList

/-- Characters removed by Python str.strip with no argument (ASCII
whitespace). -/
def isPySpace (c : Char) : Bool :=
  c == ' ' || c == '\t' || c == '\n' || c == '\r' || c == '\x0b' || c == '\x0c'

/-- Python str.strip: drop leading and trailing whitespace. -/
def pyStrip (s : List Char) : List Char :=
  ((s.dropWhile isPySpace).reverse.dropWhile isPySpace).reverse

/-- Python str.split on a single newline character. -/
def splitNl : List Char → List (List Char)
  | [] => [[]]
  | c :: cs =>
    if c == '\n' then [] :: splitNl cs
    else
      match splitNl cs with
      | [] => [[c]]
      | l :: ls => (c :: l) :: ls

/-- Python newline join of a list of lines. -/
def joinNl : List (List Char) → List Char
  | [] => []
  | [l] => l
  | l :: ls => l ++ '\n' :: joinNl ls

/-- Python list.insert: place x before position i (appending when i is past
the end). -/
def insertAt (i : Nat) (x : α) (l : List α) : List α :=
  l.take i ++ x :: l.drop i

/-- Scan of add-premium-annotations.py lines 92-110: walk the lines; a line
stripping to the php opening tag is passed over; a line stripping to a
docblock opener switches the in-docblock flag on; once the flag is on, the
first line stripping to the closing delimiter is the insertion position. -/
def findInsert : List (List Char) → Bool → Option Nat
  | [], _ => none
  | l :: ls, inDoc =>
    if pyStrip l == phpOpen then (findInsert ls inDoc).map (· + 1)
    else if isPre docOpen (pyStrip l) then (findInsert ls true).map (· + 1)
    else if inDoc && (pyStrip l == docClose) then some 0
    else (findInsert ls inDoc).map (· + 1)

/-- Membership test of the sentinel in the raw content (Python substring
containment). -/
def hasMarker (content : List Char) : Bool := decide (sentinel <:+: content)

/-- Pure core of add_premium_annotation (add-premium-annotations.py lines
80-127) on the content of an existing, readable file: return the (possibly
rewritten) content together with the changed flag. -/
def add_premium_marker (content : List Char) : List Char × Bool :=
  if hasMarker content then (content, false)
  else
    match findInsert (splitNl content) false with
    | none => (content, false)
    | some i => (joinNl (insertAt i markerLine (splitNl content)), true)

/-- One entry of the batch: whether the file exists and, if so, its
content. -/
structure FileEntry where
  present : Bool
  content : List Char

/-- Counter loop of add-premium-annotations.py main (lines 140-155): a True
result increments annotated, a False result increments skipped when the file
exists and errors otherwise. -/
def runBatch : List FileEntry → Nat × Nat × Nat
  | [] => (0, 0, 0)
  | f :: fs =>
    let r := if f.present then (add_premium_marker f.content).2 else false
    let rest := runBatch fs
    if r then (rest.1 + 1, rest.2.1, rest.2.2)
    else if f.present then (rest.1, rest.2.1 + 1, rest.2.2)
    else (rest.1, rest.2.1, rest.2.2 + 1)

/-- Line j of the line list strips to a string beginning with the docblock
opener. -/
def openerAt (ls : List (List Char)) (j : Nat) : Bool :=
  decide (j < ls.length) && isPre docOpen (pyStrip (ls.getD j []))

/-- Line k of the line list strips exactly to the closing delimiter. -/
def closerAt (ls : List (List Char)) (k : Nat) : Bool :=
  decide (k < ls.length) && (pyStrip (ls.getD k []) == docClose)

/-- Set of archive entries only in the premium manifest
(compare-versions.py line 74). -/
def only_in_premium (premium free : Finset String) : Finset String :=
  premium \ free

/-- Set of archive entries only in the free manifest (compare-versions.py
line 75). -/
def only_in_free (premium free : Finset String) : Finset String :=
  free \ premium

/-- Whether the comparator prints the unexpected-files warning: the whole
diff section (compare-versions.py lines 73-141) runs only under the guard
that the premium manifest is non-empty (line 73), and inside it the warning
block (lines 137-141) fires exactly when only_in_free is non-empty. -/
def warnFree (premium free : Finset String) : Bool :=
  decide (premium ≠ ∅) && decide (only_in_free premium free ≠ ∅)

/-- Lowercasing used by the categorizer. -/
def lowerChars (s : List Char) : List Char := s.map Char.toLower

/-- Keyword test of the analytics bucket (compare-versions.py line 88). -/
def anaKw (f : List Char) : Bool := decide ("analytics".toList <:+: lowerChars f)

/-- Keyword test of the api bucket (line 89). -/
def apiKw (f : List Char) : Bool := decide ("/api/".toList <:+: f)

/-- Keyword test of the advanced-discounts bucket (line 90). -/
def discKw (f : List Char) : Bool :=
  decide ("tiered".toList <:+: f) || decide ("bogo".toList <:+: f) ||
    decide ("spend-threshold".toList <:+: f)

/-- Keyword test of the recurring bucket (line 91). -/
def recurKw (f : List Char) : Bool :=
  decide ("recurring".toList <:+: lowerChars f)

/-- Keyword test of the export-import bucket (line 92). -/
def exImKw (f : List Char) : Bool :=
  decide ("export".toList <:+: f) || decide ("import".toList <:+: f)

/-- Analytics bucket: list-comprehension filter of line 88. -/
def analyticsB (S : List (List Char)) : List (List Char) := S.filter anaKw

/-- Api bucket (line 89). -/
def apiB (S : List (List Char)) : List (List Char) := S.filter apiKw

/-- Advanced-discounts bucket (line 90). -/
def discountsB (S : List (List Char)) : List (List Char) := S.filter discKw

/-- Recurring bucket (line 91). -/
def recurringB (S : List (List Char)) : List (List Char) := S.filter recurKw

/-- Export-import bucket (line 92). -/
def exportImportB (S : List (List Char)) : List (List Char) := S.filter exImKw

/-- Catch-all bucket (line 93): entries not occurring in the concatenation
of the five keyword buckets. -/
def otherB (S : List (List Char)) : List (List Char) :=
  S.filter (fun f =>
    !(decide (f ∈ analyticsB S ++ apiB S ++ discountsB S ++ recurringB S ++
        exportImportB S)))

/-- Eligibility test of update-file-headers.py main (lines 272-277) for a
file path given by its components relative to the plugin root: skipped when
vendor or node_modules or freemius occurs as a whole component, or when
wordpress-sdk occurs as a substring of the joined path. -/
def headerEligible (parts : RelPath) : Bool :=
  !(decide ("vendor".toList ∈ parts) || decide ("node_modules".toList ∈ parts)) &&
    !(decide ("freemius".toList ∈ parts) ||
      decide ("wordpress-sdk".toList <:+: joinPath parts))

/-- Entry carrying both of the keywords analytics and export, namely one of
the premium-only analytics files of the repository. -/
def overlapEntry : List Char :=
  "smart-cycle-discounts/includes/core/analytics/class-export-service.php".toList

/-- Entry matching no taxonomy keyword. -/
def plainEntry : List Char :=
  "smart-cycle-discounts/includes/class-foo.php".toList

/-- Content of end-to-end scenario 3. -/
def exC9 : List Char := "<header>\n/**\n * Desc\n */\n code".toList

/-- Content already carrying the sentinel marker. -/
def exMarked : List Char := "x @freemius_premium_only y".toList

/-- Content with neither the marker nor a docblock. -/
def exNoBlock : List Char := "<?php\nreturn 1;\n".toList

/-- Small concrete tree used to instantiate the pruning theorem. -/
def demoTree : List RelPath :=
  [ ["tests".toList, "x.php".toList], ["includes".toList, "a.php".toList] ]

-- Helper lemmas about the glob matcher.

theorem glob_nil (s : List Char) : glob [] s = s.isEmpty := by
  simp [glob]

theorem glob_lit :
    ∀ lit : List Char, (∀ c ∈ lit, c ≠ '*' ∧ c ≠ '?') →
      ∀ s, (glob lit s = true ↔ s = lit) := by
  intro lit
  induction lit with
  | nil =>
    intro _ s
    simp [glob, List.isEmpty_iff]
  | cons p ps ih =>
    intro h s
    have hp := h p (by simp)
    have hstep := ih (fun c hc => h c (by simp [hc]))
    cases s with
    | nil =>
      simp [glob, if_neg hp.1]
    | cons c t =>
      have hq : (p == '?') = false := by
        simp [hp.2]
      simp [glob, if_neg hp.1, hq, hstep t, beq_iff_eq]
      intro hpc
      subst hpc
      constructor
      · intro ht; rw [ht]
      · intro ht; exact ht.symm

theorem starScan_iff (m : List Char → Bool) :
    ∀ s, (starScan m s = true ↔ ∃ u, u <:+ s ∧ m u = true) := by
  intro s
  induction s with
  | nil =>
    simp [starScan, List.suffix_nil]
  | cons c t ih =>
    simp only [starScan, Bool.or_eq_true, ih]
    constructor
    · rintro (h | ⟨u, hu, hm⟩)
      · exact ⟨c :: t, List.suffix_rfl, h⟩
      · exact ⟨u, (List.suffix_cons_iff).2 (Or.inr hu), hm⟩
    · rintro ⟨u, hu, hm⟩
      rcases (List.suffix_cons_iff).1 hu with h | h
      · subst h; exact Or.inl hm
      · exact Or.inr ⟨u, h, hm⟩

theorem glob_star_lit (lit : List Char) (h : ∀ c ∈ lit, c ≠ '*' ∧ c ≠ '?') :
    ∀ s, (glob ('*' :: lit) s = true ↔ lit <:+ s) := by
  intro s
  have : glob ('*' :: lit) s = starScan (fun u => glob lit u) s := by
    simp [glob]
  rw [this, starScan_iff]
  constructor
  · rintro ⟨u, hu, hm⟩
    rw [glob_lit lit h u] at hm
    exact hm ▸ hu
  · intro hs
    exact ⟨lit, hs, (glob_lit lit h lit).2 rfl⟩

theorem suffix_through_join :
    ∀ p : RelPath, p ≠ [] → ∀ ext : List Char, '/' ∉ ext →
      ext <:+ joinPath p → ext <:+ pathBase p := by
  intro p
  induction p with
  | nil => intro h; exact absurd rfl h
  | cons c cs ih =>
    intro _ ext hsl hj
    cases cs with
    | nil =>
      simpa [joinPath, pathBase] using hj
    | cons d ds =>
      have hj' : ext <:+ c ++ '/' :: joinPath (d :: ds) := by
        simpa [joinPath] using hj
      have htail : ('/' :: joinPath (d :: ds)) <:+ c ++ '/' :: joinPath (d :: ds) :=
        List.suffix_append c ('/' :: joinPath (d :: ds))
      rcases List.suffix_or_suffix_of_suffix hj' htail with h | h
      · rcases (List.suffix_cons_iff).1 h with h' | h'
        · exact absurd (h' ▸ List.mem_cons_self '/' _) hsl
        · have := ih (by simp) ext hsl h'
          simpa [pathBase] using this
      · have hm : '/' ∈ ext := h.sublist.mem (List.mem_cons_self '/' _)
        exact absurd hm hsl

-- Helper lemmas about joined line lists and the docblock scan.

theorem infix_append_left {m a : List Char} (b : List Char) (h : m <:+: a) :
    m <:+: a ++ b := by
  obtain ⟨s, t, hst⟩ := h
  exact ⟨s, t ++ b, by rw [← hst]; simp⟩

theorem infix_append_right {m b : List Char} (a : List Char) (h : m <:+: b) :
    m <:+: a ++ b := by
  obtain ⟨s, t, hst⟩ := h
  exact ⟨a ++ s, t, by rw [← hst]; simp⟩

theorem infix_mem_joinNl (m : List Char) :
    ∀ (ls : List (List Char)) (l : List Char), l ∈ ls → m <:+: l →
      m <:+: joinNl ls := by
  intro ls
  induction ls with
  | nil => intro l hl; exact absurd hl (List.not_mem_nil l)
  | cons x xs ih =>
    intro l hl hm
    cases xs with
    | nil =>
      rcases List.mem_cons.1 hl with h | h
      · subst h; simpa [joinNl] using hm
      · exact absurd h (List.not_mem_nil l)
    | cons y t =>
      have hjoin : joinNl (x :: y :: t) = x ++ '\n' :: joinNl (y :: t) := rfl
      rw [hjoin]
      rcases List.mem_cons.1 hl with h | h
      · exact infix_append_left _ (h ▸ hm)
      · refine infix_append_right x ?_
        have := ih l h hm
        exact (List.infix_cons_iff).2 (Or.inr this)

theorem closerAt_zero (l : List Char) (ls : List (List Char)) :
    closerAt (l :: ls) 0 = (pyStrip l == docClose) := by
  simp [closerAt]

theorem closerAt_cons_succ (l : List Char) (ls : List (List Char)) (k : Nat) :
    closerAt (l :: ls) (k + 1) = closerAt ls k := by
  simp [closerAt, Nat.succ_lt_succ_iff]

theorem openerAt_zero (l : List Char) (ls : List (List Char)) :
    openerAt (l :: ls) 0 = isPre docOpen (pyStrip l) := by
  simp [openerAt]

theorem openerAt_cons_succ (l : List Char) (ls : List (List Char)) (j : Nat) :
    openerAt (l :: ls) (j + 1) = openerAt ls j := by
  simp [openerAt, Nat.succ_lt_succ_iff]

theorem closerAt_length {ls : List (List Char)} {k : Nat}
    (h : closerAt ls k = true) : k < ls.length := by
  simp [closerAt] at h
  exact h.1

theorem openerAt_length {ls : List (List Char)} {j : Nat}
    (h : openerAt ls j = true) : j < ls.length := by
  simp [openerAt] at h
  exact h.1

theorem findInsert_some_of_closer :
    ∀ ls : List (List Char), (∃ k, closerAt ls k = true) →
      ∃ m, findInsert ls true = some m ∧ closerAt ls m = true := by
  intro ls
  induction ls with
  | nil =>
    rintro ⟨k, hk⟩
    simp [closerAt] at hk
  | cons l ls ih =>
    rintro ⟨k, hk⟩
    by_cases h1 : pyStrip l = phpOpen
    · have hk' : ∃ k', closerAt ls k' = true := by
        cases k with
        | zero =>
          rw [closerAt_zero, h1] at hk
          exact absurd hk (by decide)
        | succ k' =>
          rw [closerAt_cons_succ] at hk
          exact ⟨k', hk⟩
      obtain ⟨m, hm, hcm⟩ := ih hk'
      refine ⟨m + 1, ?_, by rw [closerAt_cons_succ]; exact hcm⟩
      simp [findInsert, h1, hm]
    · by_cases h2 : isPre docOpen (pyStrip l) = true
      · have hk' : ∃ k', closerAt ls k' = true := by
          cases k with
          | zero =>
            rw [closerAt_zero] at hk
            rw [beq_iff_eq] at hk
            rw [hk] at h2
            exact absurd h2 (by decide)
          | succ k' =>
            rw [closerAt_cons_succ] at hk
            exact ⟨k', hk⟩
        obtain ⟨m, hm, hcm⟩ := ih hk'
        refine ⟨m + 1, ?_, by rw [closerAt_cons_succ]; exact hcm⟩
        simp [findInsert, h1, h2, hm]
      · by_cases h3 : pyStrip l = docClose
        · refine ⟨0, ?_, by rw [closerAt_zero, h3]; decide⟩
          simp [findInsert, h1, h2, h3]
          rw [if_neg (show ¬(docClose = phpOpen) by decide)]
          rw [if_neg (show ¬(isPre docOpen docClose = true) by decide)]
        · have hk' : ∃ k', closerAt ls k' = true := by
            cases k with
            | zero =>
              rw [closerAt_zero, beq_iff_eq] at hk
              exact absurd hk h3
            | succ k' =>
              rw [closerAt_cons_succ] at hk
              exact ⟨k', hk⟩
          obtain ⟨m, hm, hcm⟩ := ih hk'
          refine ⟨m + 1, ?_, by rw [closerAt_cons_succ]; exact hcm⟩
          simp [findInsert, h1, h2, h3, hm]

theorem findInsert_some_of_opener_closer :
    ∀ ls : List (List Char),
      (∃ j k, j < k ∧ openerAt ls j = true ∧ closerAt ls k = true) →
      ∃ m, findInsert ls false = some m ∧ closerAt ls m = true := by
  intro ls
  induction ls with
  | nil =>
    rintro ⟨j, k, _, hoj, _⟩
    simp [openerAt] at hoj
  | cons l ls ih =>
    rintro ⟨j, k, hjk, hoj, hck⟩
    by_cases h2 : isPre docOpen (pyStrip l) = true
    · have h1 : ¬ pyStrip l = phpOpen := by
        intro he
        rw [he] at h2
        exact absurd h2 (by decide)
      have hk' : ∃ k', closerAt ls k' = true := by
        cases k with
        | zero =>
          rw [closerAt_zero, beq_iff_eq] at hck
          rw [hck] at h2
          exact absurd h2 (by decide)
        | succ k' =>
          rw [closerAt_cons_succ] at hck
          exact ⟨k', hck⟩
      obtain ⟨m, hm, hcm⟩ := findInsert_some_of_closer ls hk'
      refine ⟨m + 1, ?_, by rw [closerAt_cons_succ]; exact hcm⟩
      simp [findInsert, h1, h2, hm]
    · have hj' : ∃ j', j = j' + 1 := by
        cases j with
        | zero =>
          rw [openerAt_zero] at hoj
          exact absurd hoj h2
        | succ j' => exact ⟨j', rfl⟩
      obtain ⟨j', rfl⟩ := hj'
      have hk' : ∃ k', k = k' + 1 := by
        cases k with
        | zero => exact absurd hjk (by omega)
        | succ k' => exact ⟨k', rfl⟩
      obtain ⟨k', rfl⟩ := hk'
      rw [openerAt_cons_succ] at hoj
      rw [closerAt_cons_succ] at hck
      obtain ⟨m, hm, hcm⟩ := ih ⟨j', k', by omega, hoj, hck⟩
      refine ⟨m + 1, ?_, by rw [closerAt_cons_succ]; exact hcm⟩
      by_cases h1 : pyStrip l = phpOpen
      · simp [findInsert, h1, hm]
      · simp [findInsert, h1, h2, hm]

theorem findInsert_some_inv :
    ∀ (ls : List (List Char)) (inDoc : Bool) (m : Nat),
      findInsert ls inDoc = some m →
      closerAt ls m = true ∧
        (inDoc = false → ∃ j, j < m ∧ openerAt ls j = true) := by
  intro ls
  induction ls with
  | nil =>
    intro inDoc m h
    simp [findInsert] at h
  | cons l ls ih =>
    intro inDoc m h
    by_cases h1 : pyStrip l = phpOpen
    · rw [show findInsert (l :: ls) inDoc =
            (findInsert ls inDoc).map (· + 1) by simp [findInsert, h1]] at h
      obtain ⟨m', hm', rfl⟩ := (Option.map_eq_some').1 h
      obtain ⟨hc, ho⟩ := ih inDoc m' hm'
      refine ⟨by rw [closerAt_cons_succ]; exact hc, ?_⟩
      intro hF
      obtain ⟨j, hj, hoj⟩ := ho hF
      exact ⟨j + 1, by omega, by rw [openerAt_cons_succ]; exact hoj⟩
    · by_cases h2 : isPre docOpen (pyStrip l) = true
      · rw [show findInsert (l :: ls) inDoc =
              (findInsert ls true).map (· + 1) by simp [findInsert, h1, h2]] at h
        obtain ⟨m', hm', rfl⟩ := (Option.map_eq_some').1 h
        obtain ⟨hc, _⟩ := ih true m' hm'
        refine ⟨by rw [closerAt_cons_succ]; exact hc, ?_⟩
        intro _
        exact ⟨0, by omega, by rw [openerAt_zero]; exact h2⟩
      · by_cases h3 : (inDoc && (pyStrip l == docClose)) = true
        · rw [show findInsert (l :: ls) inDoc = some 0 by
                simp [findInsert, h1, h2, h3]] at h
          obtain rfl : m = 0 := by
            injection h with h
            exact h.symm
          rw [Bool.and_eq_true] at h3
          obtain ⟨hd, hcl⟩ := h3
          refine ⟨by rw [closerAt_zero]; exact hcl, ?_⟩
          intro hF
          rw [hF] at hd
          cases hd
        · rw [show findInsert (l :: ls) inDoc =
                (findInsert ls inDoc).map (· + 1) by simp [findInsert, h1, h2, h3]] at h
          obtain ⟨m', hm', rfl⟩ := (Option.map_eq_some').1 h
          obtain ⟨hc, ho⟩ := ih inDoc m' hm'
          refine ⟨by rw [closerAt_cons_succ]; exact hc, ?_⟩
          intro hF
          obtain ⟨j, hj, hoj⟩ := ho hF
          exact ⟨j + 1, by omega, by rw [openerAt_cons_succ]; exact hoj⟩

/-- Claim C1: a candidate whose exact name is listed in the root-file
allow list is written to the archive under every configuration, however
many deny patterns match that name — deny patterns are consulted only for
files inside included directories; and on the scenario tree with deny
patterns for md and log files plus force-include b.md, the accepted set is
exactly a.php, b.md and sub/c.php. -/
theorem force_include_always_wins :
    (∀ (cfg : BuildCfg) (n : Component), cfg.rootFiles.contains n = true →
      accepts cfg [n] = true) ∧
    scenTree.filter (accepts scenCfg) =
      [ ["a.php".toList], ["b.md".toList], ["sub".toList, "c.php".toList] ] := by
  constructor
  · intro cfg n h
    have hm : n ∈ cfg.rootFiles := by simpa using h
    simp [accepts, isRootInclude, hm]
  · decide

/-- Witness for C1: in the scenario configuration, b.md is force-included
and the decision on the root path b.md is Included even though the deny
pattern for md files matches its name. -/
theorem force_include_always_wins_witness :
    scenCfg.rootFiles.contains ("b.md".toList) = true ∧
      accepts scenCfg [("b.md".toList)] = true :=
  ⟨by decide, force_include_always_wins.1 scenCfg ("b.md".toList) (by decide)⟩

/-- Counterexample to claim C2 as stated: with the full manifest holding one
entry a and the restricted manifest empty, the set full minus restricted is
non-empty, yet the subset invariant restricted within full holds and the
comparator prints no warning — so a non-empty full-minus-restricted
difference neither violates the invariant nor is surfaced as a warning. -/
theorem full_only_direction_counterexample :
    only_in_premium {"a"} ∅ ≠ ∅ ∧ ((∅ : Finset String) ⊆ {"a"}) ∧
      warnFree {"a"} ∅ = false := by
  refine ⟨by decide, by decide, by decide⟩

/-- Claim C2 (amended): the anomalous difference is restricted minus full
(the files only in the free manifest), not full minus restricted: that
difference is non-empty exactly when the subset invariant restricted within
full fails, and for every pair of manifests the comparator prints its
warning exactly when the full (premium) manifest is non-empty and
restricted minus full is non-empty — when the premium manifest is empty the
whole diff section is skipped, and even a subset violation stays silent. -/
theorem free_only_warning_iff_subset_violation :
    ∀ premium free : Finset String,
      (warnFree premium free = true ↔
        (premium ≠ ∅ ∧ ¬ free ⊆ premium)) ∧
      ((only_in_free premium free).Nonempty ↔ ¬ free ⊆ premium) ∧
      warnFree ∅ free = false := by
  intro premium free
  have hsd : (only_in_free premium free).Nonempty ↔ ¬ free ⊆ premium := by
    simpa [only_in_free] using Finset.sdiff_nonempty
  refine ⟨?_, hsd, by simp [warnFree]⟩
  rw [warnFree, Bool.and_eq_true, decide_eq_true_eq, decide_eq_true_eq]
  rw [← Finset.nonempty_iff_ne_empty]
  rw [← Finset.nonempty_iff_ne_empty, hsd]

/-- Claim C3: the tag operation is idempotent — a second application
returns the first application's output unchanged with the changed flag
false; and content already holding the sentinel marker anywhere is returned
byte-for-byte unchanged with the changed flag false. -/
theorem tagging_idempotent :
    ∀ content : List Char,
      add_premium_marker ((add_premium_marker content).1) =
        ((add_premium_marker content).1, false) ∧
      (hasMarker content = true → add_premium_marker content = (content, false)) := by
  intro content
  by_cases h : hasMarker content = true
  · have h1 : add_premium_marker content = (content, false) := by
      simp [add_premium_marker, h]
    exact ⟨by rw [h1]; simpa [add_premium_marker] using h1, fun _ => h1⟩
  · have hb : hasMarker content = false := by
      cases hq : hasMarker content
      · rfl
      · exact absurd hq h
    cases hfi : findInsert (splitNl content) false with
    | none =>
      have h1 : add_premium_marker content = (content, false) := by
        simp [add_premium_marker, hb, hfi]
      exact ⟨by rw [h1]; exact h1, fun hc => absurd hc h⟩
    | some i =>
      have h1 : add_premium_marker content =
          (joinNl (insertAt i markerLine (splitNl content)), true) := by
        simp [add_premium_marker, hb, hfi]
      have hmem : markerLine ∈ insertAt i markerLine (splitNl content) := by
        simp [insertAt]
      have hsent : sentinel <:+: markerLine := by decide
      have h2 : hasMarker (joinNl (insertAt i markerLine (splitNl content))) = true := by
        simp only [hasMarker, decide_eq_true_eq]
        exact infix_mem_joinNl sentinel _ markerLine hmem hsent
      refine ⟨?_, fun hc => absurd hc h⟩
      rw [h1]
      simp [add_premium_marker, h2]

/-- Witness for C3: on content already carrying the marker, the operation
reports no change and leaves the content unchanged, and a second
application agrees with the first. -/
theorem tagging_idempotent_witness :
    hasMarker exMarked = true ∧
      add_premium_marker exMarked = (exMarked, false) ∧
      add_premium_marker ((add_premium_marker exMarked).1) =
        ((add_premium_marker exMarked).1, false) :=
  ⟨by decide, (tagging_idempotent exMarked).2 (by decide),
    (tagging_idempotent exMarked).1⟩

/-- Counterexample to claim C4 as stated: the premium-only analytics export
service file contains both the analytics keyword and the export keyword, so
on a manifest difference holding just that entry the entry lands in the
analytics bucket and in the export-import bucket at once — the buckets are
not pairwise disjoint. -/
theorem bucket_partition_counterexample :
    overlapEntry ∈ analyticsB [overlapEntry] ∧
      overlapEntry ∈ exportImportB [overlapEntry] := by
  refine ⟨by decide, by decide⟩

/-- Claim C4 (amended): every premium-only entry lands in at least one
bucket — none is dropped — and the other bucket catches exactly the entries
matching no keyword; but an entry matching several keywords appears in
every matching bucket, so the buckets overlap rather than partition. -/
theorem buckets_cover_all_entries :
    ∀ (S : List (List Char)) (f : List Char), f ∈ S →
      (f ∈ analyticsB S ∨ f ∈ apiB S ∨ f ∈ discountsB S ∨ f ∈ recurringB S ∨
        f ∈ exportImportB S ∨ f ∈ otherB S) ∧
      (f ∈ otherB S ↔
        anaKw f = false ∧ apiKw f = false ∧ discKw f = false ∧
          recurKw f = false ∧ exImKw f = false) := by
  intro S f hf
  have hother : f ∈ otherB S ↔
      ¬(anaKw f = true ∨ apiKw f = true ∨ discKw f = true ∨
        recurKw f = true ∨ exImKw f = true) := by
    simp [otherB, analyticsB, apiB, discountsB, recurringB, exportImportB,
      List.mem_filter, List.mem_append, hf]
  constructor
  · by_cases hk : anaKw f = true ∨ apiKw f = true ∨ discKw f = true ∨
        recurKw f = true ∨ exImKw f = true
    · rcases hk with h | h | h | h | h
      · exact Or.inl (List.mem_filter.2 ⟨hf, h⟩)
      · exact Or.inr (Or.inl (List.mem_filter.2 ⟨hf, h⟩))
      · exact Or.inr (Or.inr (Or.inl (List.mem_filter.2 ⟨hf, h⟩)))
      · exact Or.inr (Or.inr (Or.inr (Or.inl (List.mem_filter.2 ⟨hf, h⟩))))
      · exact Or.inr (Or.inr (Or.inr (Or.inr (Or.inl (List.mem_filter.2 ⟨hf, h⟩)))))
    · exact Or.inr (Or.inr (Or.inr (Or.inr (Or.inr (hother.2 hk)))))
  · rw [hother]
    constructor
    · intro hk
      push_neg at hk
      exact ⟨Bool.not_eq_true _ ▸ Bool.eq_false_iff.2 hk.1,
        Bool.eq_false_iff.2 hk.2.1, Bool.eq_false_iff.2 hk.2.2.1,
        Bool.eq_false_iff.2 hk.2.2.2.1, Bool.eq_false_iff.2 hk.2.2.2.2⟩
    · rintro ⟨h1, h2, h3, h4, h5⟩
      rw [h1, h2, h3, h4, h5]
      simp

/-- Witness for C4 amended: an entry matching no keyword lands in the other
bucket and is not dropped. -/
theorem buckets_cover_all_entries_witness :
    plainEntry ∈ [plainEntry] ∧
      (plainEntry ∈ analyticsB [plainEntry] ∨ plainEntry ∈ apiB [plainEntry] ∨
        plainEntry ∈ discountsB [plainEntry] ∨
        plainEntry ∈ recurringB [plainEntry] ∨
        plainEntry ∈ exportImportB [plainEntry] ∨
        plainEntry ∈ otherB [plainEntry]) :=
  ⟨by decide, (buckets_cover_all_entries [plainEntry] plainEntry (by decide)).1⟩

theorem star_match_name_or_path (ext : List Char)
    (hne : ∀ c ∈ ext, c ≠ '*' ∧ c ≠ '?') (hsl : '/' ∉ ext)
    (p : RelPath) (hp : p ≠ []) :
    (glob ('*' :: ext) (pathBase p) = true ↔
      (glob ('*' :: ext) (pathBase p) = true ∨
        glob ('*' :: ext) (joinPath p) = true)) := by
  constructor
  · exact Or.inl
  · rintro (h | h)
    · exact h
    · rw [glob_star_lit ext hne] at h ⊢
      exact suffix_through_join p hp ext hsl h

/-- Claim C5: for every configured within-directory rule whose pattern holds
a shell wildcard character and every non-empty candidate path, the code's
match (a glob of the pattern against the bare basename) succeeds exactly
when a glob succeeds against the bare name or against the full joined
relative path — for these suffix-shaped patterns a full-path match forces a
basename match, so the two formulations agree. -/
theorem wildcard_rule_matches_name_or_path :
    ∀ pat ∈ EXCLUDE_FILES_WITHIN, hasWildcard pat = true →
      ∀ p : RelPath, p ≠ [] →
        (matches_pattern (pathBase p) pat = true ↔
          (glob pat (pathBase p) = true ∨ glob pat (joinPath p) = true)) := by
  intro pat hpat hw p hp
  fin_cases hpat
  · exact star_match_name_or_path (".sh".toList) (by decide) (by decide) p hp
  · exact star_match_name_or_path (".md".toList) (by decide) (by decide) p hp
  · exact star_match_name_or_path (".map".toList) (by decide) (by decide) p hp
  · exact star_match_name_or_path (".scss".toList) (by decide) (by decide) p hp
  · exact star_match_name_or_path (".sass".toList) (by decide) (by decide) p hp
  · exact star_match_name_or_path (".ts".toList) (by decide) (by decide) p hp
  · exact star_match_name_or_path (".log".toList) (by decide) (by decide) p hp
  · exact absurd hw (by decide)
  · exact absurd hw (by decide)
  · exact absurd hw (by decide)

/-- Witness for C5: the md pattern is a configured wildcard rule, and on the
deep candidate sub/readme.md the name-only match of the code agrees with the
name-or-path formulation. -/
theorem wildcard_rule_matches_name_or_path_witness :
    ("*.md".toList) ∈ EXCLUDE_FILES_WITHIN ∧
      hasWildcard ("*.md".toList) = true ∧
      (["sub".toList, "readme.md".toList] : RelPath) ≠ [] ∧
      (matches_pattern (pathBase ["sub".toList, "readme.md".toList])
          ("*.md".toList) = true ↔
        (glob ("*.md".toList) (pathBase ["sub".toList, "readme.md".toList]) = true ∨
          glob ("*.md".toList) (joinPath ["sub".toList, "readme.md".toList]) = true)) :=
  ⟨by decide, by decide, by decide,
    wildcard_rule_matches_name_or_path ("*.md".toList) (by decide) (by decide)
      (["sub".toList, "readme.md".toList]) (by decide)⟩

/-- Claim C6: with the configured rule set, the decision on
resources/assets/css/file.css is Included while the decision on
resources/assets/scss/file.scss is Excluded; moreover every path below the
scss directory is Excluded, so the exclusion of the scss subtree never leaks
to the sibling css directory that merely shares a leading substring. -/
theorem prefix_rule_no_sibling_leak :
    accepts buildCfg
        ["resources".toList, "assets".toList, "css".toList, "file.css".toList] = true ∧
    accepts buildCfg
        ["resources".toList, "assets".toList, "scss".toList, "file.scss".toList] = false ∧
    (∀ rest : RelPath,
      accepts buildCfg
        ("resources".toList :: "assets".toList :: "scss".toList :: rest) = false) := by
  exact ⟨by decide, by decide, fun rest => rfl⟩

/-- Claim C7: the header-update walker skips a file exactly when one of its
deny names occurs as a whole path component (or the wordpress-sdk substring
occurs in the joined path) — so the component rule vendor never matches the
merely similar component vendor-extra: vendor-extra/readme.txt is processed
while vendor/anything is skipped. -/
theorem component_rule_no_substring_match :
    (∀ parts : RelPath,
      headerEligible parts = false ↔
        ("vendor".toList ∈ parts ∨ "node_modules".toList ∈ parts ∨
          "freemius".toList ∈ parts ∨
          "wordpress-sdk".toList <:+: joinPath parts)) ∧
    headerEligible ["vendor-extra".toList, "readme.txt".toList] = true ∧
    headerEligible ["vendor".toList, "anything".toList] = false := by
  refine ⟨?_, by decide, by decide⟩
  intro parts
  constructor
  · intro h
    by_contra hn
    push_neg at hn
    obtain ⟨h1, h2, h3, h4⟩ := hn
    rw [headerEligible] at h
    simp at h
    exact h4 (h h1 h2 h3)
  · intro hor
    rw [headerEligible]
    simp
    rcases hor with h | h | h | h
    · intro hv _ _
      exact absurd h hv
    · intro _ hn _
      exact absurd h hn
    · intro _ _ hf
      exact absurd h hf
    · intro _ _ _
      exact h

/-- Claim C8: for every configuration and tree, when no allow-listed root
lies at or below a top-level directory t, the walk of create_zip touches no
path strictly beneath t: filtering the visited paths for those beneath t
yields the empty list. -/
theorem excluded_top_dir_never_visited :
    ∀ (cfg : BuildCfg) (tree : List RelPath) (t : Component),
      (∀ d ∈ cfg.incDirs, d ≠ [] ∧ d.head? ≠ some t) →
      (createZipVisits cfg tree).filter (beneathTop t) = [] := by
  intro cfg tree t h
  rw [List.filter_eq_nil_iff]
  intro p hp
  rcases List.mem_append.1 hp with hroot | hwalk
  · obtain ⟨n, _, rfl⟩ := List.mem_map.1 hroot
    simp [beneathTop]
  · obtain ⟨d, hd, hpd⟩ := List.mem_flatMap.1 hwalk
    have hsp : strictPre d p = true := (List.mem_filter.1 hpd).2
    obtain ⟨hdne, hdh⟩ := h d hd
    cases d with
    | nil => exact absurd rfl hdne
    | cons a ds =>
      cases p with
      | nil => simp [strictPre] at hsp
      | cons b ps =>
        rw [strictPre] at hsp
        rw [Bool.and_eq_true, beq_iff_eq] at hsp
        obtain ⟨rfl, -⟩ := hsp
        cases ps with
        | nil => simp [beneathTop]
        | cons q qs =>
          have hbt : a ≠ t := by
            intro he
            exact hdh (by rw [he]; rfl)
          simp [beneathTop, hbt]

/-- Witness for C8: in the configuration of build.py no allow root starts at
the tests directory, and on a small tree with a file inside tests the walk
touches no path beneath tests. -/
theorem excluded_top_dir_never_visited_witness :
    (∀ d ∈ buildCfg.incDirs, d ≠ [] ∧ d.head? ≠ some ("tests".toList)) ∧
      (createZipVisits buildCfg demoTree).filter
        (beneathTop ("tests".toList)) = [] :=
  ⟨by decide,
    excluded_top_dir_never_visited buildCfg demoTree ("tests".toList) (by decide)⟩

/-- Claim C9: on content without the marker but with a located docblock (a
line stripping to an opener followed later by a line stripping to the
closing delimiter), one tag call splits the lines around that closing line
and inserts the marker line immediately before it, reporting a change; a
second tag call on the result changes nothing. -/
theorem marker_inserted_before_closer :
    ∀ content : List Char,
      hasMarker content = false →
      (∃ j k, j < k ∧ openerAt (splitNl content) j = true ∧
        closerAt (splitNl content) k = true) →
      ∃ pre closeLine post,
        splitNl content = pre ++ closeLine :: post ∧
        pyStrip closeLine = docClose ∧
        add_premium_marker content =
          (joinNl (pre ++ markerLine :: closeLine :: post), true) ∧
        add_premium_marker (joinNl (pre ++ markerLine :: closeLine :: post)) =
          (joinNl (pre ++ markerLine :: closeLine :: post), false) := by
  intro content hm hex
  obtain ⟨m, hfi, hcm⟩ := findInsert_some_of_opener_closer _ hex
  have hlen : m < (splitNl content).length := closerAt_length hcm
  have hclose : pyStrip ((splitNl content).getD m []) = docClose := by
    have h' := hcm
    unfold closerAt at h'
    rw [Bool.and_eq_true] at h'
    exact beq_iff_eq.mp h'.2
  have hins : insertAt m markerLine (splitNl content) =
      (splitNl content).take m ++ markerLine :: (splitNl content).getD m [] ::
        (splitNl content).drop (m + 1) := by
    rw [insertAt, List.drop_eq_getElem_cons hlen, List.getD_eq_getElem _ _ hlen]
  refine ⟨(splitNl content).take m, (splitNl content).getD m [],
    (splitNl content).drop (m + 1), ?_, hclose, ?_, ?_⟩
  · conv_lhs => rw [← List.take_append_drop m (splitNl content)]
    rw [List.drop_eq_getElem_cons hlen, List.getD_eq_getElem _ _ hlen]
  · rw [show add_premium_marker content =
        (joinNl (insertAt m markerLine (splitNl content)), true) by
      simp [add_premium_marker, hm, hfi]]
    rw [hins]
  · have hmem : markerLine ∈
        (splitNl content).take m ++ markerLine :: (splitNl content).getD m [] ::
          (splitNl content).drop (m + 1) := by simp
    have h2 : hasMarker (joinNl ((splitNl content).take m ++ markerLine ::
        (splitNl content).getD m [] :: (splitNl content).drop (m + 1))) = true := by
      simp only [hasMarker, decide_eq_true_eq]
      exact infix_mem_joinNl sentinel _ markerLine hmem (by decide)
    unfold add_premium_marker
    rw [if_pos h2]

/-- Witness for C9, end-to-end scenario 3: the example content has no marker
and a docblock opened at line one and closed at line three, and the theorem
yields the decomposition with the marker inserted directly before the
closing delimiter line. -/
theorem marker_inserted_before_closer_witness :
    hasMarker exC9 = false ∧ openerAt (splitNl exC9) 1 = true ∧
      closerAt (splitNl exC9) 3 = true ∧
      (∃ pre closeLine post,
        splitNl exC9 = pre ++ closeLine :: post ∧
        pyStrip closeLine = docClose ∧
        add_premium_marker exC9 =
          (joinNl (pre ++ markerLine :: closeLine :: post), true) ∧
        add_premium_marker (joinNl (pre ++ markerLine :: closeLine :: post)) =
          (joinNl (pre ++ markerLine :: closeLine :: post), false)) :=
  ⟨by decide, by decide, by decide,
    marker_inserted_before_closer exC9 (by decide)
      ⟨1, 3, by decide, by decide, by decide⟩⟩

/-- Claim C10: content of an existing file holding neither the marker nor
any located docblock is left unchanged with result False, and the batch
driver therefore counts the file as already annotated (skipped), not as an
error, and continues with the remaining files. -/
theorem missing_docblock_counted_skipped :
    ∀ (content : List Char) (rest : List FileEntry),
      hasMarker content = false →
      (∀ j, j < (splitNl content).length → ∀ k, k < (splitNl content).length →
        j < k → ¬(openerAt (splitNl content) j = true ∧
          closerAt (splitNl content) k = true)) →
      add_premium_marker content = (content, false) ∧
      runBatch (⟨true, content⟩ :: rest) =
        ((runBatch rest).1, (runBatch rest).2.1 + 1, (runBatch rest).2.2) := by
  intro content rest hm hno
  have hfi : findInsert (splitNl content) false = none := by
    cases hq : findInsert (splitNl content) false with
    | none => rfl
    | some m =>
      obtain ⟨hc, hop⟩ := findInsert_some_inv _ _ _ hq
      obtain ⟨j, hjm, hoj⟩ := hop rfl
      exact absurd ⟨hoj, hc⟩
        (hno j (openerAt_length hoj) m (closerAt_length hc) hjm)
  have h1 : add_premium_marker content = (content, false) := by
    simp [add_premium_marker, hm, hfi]
  refine ⟨h1, ?_⟩
  simp [runBatch, h1]

/-- Witness for C10: a php file content with no docblock is skipped, and a
batch holding only that file ends with zero annotated, one skipped, zero
errors. -/
theorem missing_docblock_counted_skipped_witness :
    hasMarker exNoBlock = false ∧
      add_premium_marker exNoBlock = (exNoBlock, false) ∧
      runBatch [⟨true, exNoBlock⟩] = (0, 1, 0) := by
  have h := missing_docblock_counted_skipped exNoBlock [] (by decide) (by decide)
  exact ⟨by decide, h.1, h.2⟩
